import Mathlib

/-!
Verification of the dataset ingestion and derivation pipeline of the
`st_olist` repository (sources: `src/app_olist.py`, `src/preprocess_olist.py`,
`src/convert_to_parquet.py`) against its natural-language specification.

The Python code is shallowly embedded: pandas tables become Lean lists of
records, missing values (`NaN` / `NaT`) become `Option.none`, timestamps become
integers (seconds), monetary values and review scores become rationals, and
each pandas operation used by the scripts is translated into an explicit
executable Lean function.
-/

namespace Olist

/-! ## Table Loader (src/app_olist.py, `load_data`, lines 50-61)

The filesystem is abstracted as the set of paths that exist and the set of
paths whose `pd.read_parquet` / `pd.read_csv` call succeeds.  The loop body
`if os.path.exists(p): try: read p ... except: continue` advances to the next
candidate unless the path both exists and parses. -/

structure Env where
  present : List String
  parses : List String
deriving DecidableEq

/-- A probe of one candidate path succeeds iff the file exists and the read
call does not raise (`os.path.exists(p)` and the `try` body succeeding). -/
def readOk (env : Env) (p : String) : Bool :=
  env.present.contains p && env.parses.contains p

/-- Result of `load_data` for one logical table: either a table loaded from a
concrete path, or the empty `pd.DataFrame()` assigned when nothing was found. -/
inductive LoadResult
  | loaded (path : String)
  | empty
deriving DecidableEq

/-- Inner loop `for ext in ['.parquet', '.csv']` with its `break` on success:
probe `base ++ suffix ++ ".parquet"` then `base ++ suffix ++ ".csv"`. -/
def probeSuffix (env : Env) (base suffix : String) : Option String :=
  if readOk env (base ++ suffix ++ ".parquet") then some (base ++ suffix ++ ".parquet")
  else if readOk env (base ++ suffix ++ ".csv") then some (base ++ suffix ++ ".csv")
  else none

/-- Outer loop `for suffix in ['_cleaned', '']` with its `break` once `found`,
and the final `if not found: loaded[key] = pd.DataFrame()`. -/
def loadTable (env : Env) (base : String) : LoadResult :=
  match probeSuffix env base "_cleaned" with
  | some p => .loaded p
  | none =>
    match probeSuffix env base "" with
    | some p => .loaded p
    | none => .empty

/-- The four candidate paths in the order the nested loops visit them, each
written as `base + suffix + ext` exactly as in the loop body. -/
def candidates (base : String) : List String :=
  [base ++ "_cleaned" ++ ".parquet", base ++ "_cleaned" ++ ".csv",
   base ++ "" ++ ".parquet", base ++ "" ++ ".csv"]

/-- The `load_data` body for one logical table together with its diagnostic
stream.  Lines 50-61 of `src/app_olist.py` contain no `print`, `st.warning` or
similar call: a missing table is silently replaced by an empty frame and a
parse failure is silently skipped, so the diagnostic stream is always empty. -/
def loadTableWithDiag (env : Env) (base : String) : LoadResult × List String :=
  (loadTable env base, [])

/-- Environment in which every candidate for the logical table `t` exists and
parses. -/
def envAll : Env :=
  ⟨["t_cleaned.parquet", "t_cleaned.csv", "t.parquet", "t.csv"],
   ["t_cleaned.parquet", "t_cleaned.csv", "t.parquet", "t.csv"]⟩

/-- Environment in which only the cleaned parquet and the raw csv exist. -/
def envCleanedParquetRawCsv : Env :=
  ⟨["t_cleaned.parquet", "t.csv"], ["t_cleaned.parquet", "t.csv"]⟩

/-- Environment with no files at all. -/
def envEmpty : Env := ⟨[], []⟩

/-- Environment where the cleaned parquet exists but is corrupt (read raises),
and the raw csv exists and parses. -/
def envCorruptCleaned : Env := ⟨["t_cleaned.parquet", "t.csv"], ["t.csv"]⟩

/-! ## Row types and derived fields (src/app_olist.py, lines 96-106, 482-483)

Timestamps are integers (epoch seconds); a pandas `NaT` is `none`. -/

structure OrderRow where
  order_id : String
  customer_id : String
  purchase : Option Int
  delivered : Option Int
  estimated : Option Int
deriving DecidableEq

structure Review where
  order_id : String
  review_score : Rat
deriving DecidableEq

/-- Line 96: `df_del = orders.dropna(subset=['order_delivered_customer_date']).copy()`.
Only the delivered timestamp is in the `dropna` subset. -/
def dfDel (orders : List OrderRow) : List OrderRow :=
  orders.filter (fun r => r.delivered.isSome)

/-- Line 98: `df_del['delivery_days'] = (delivered - purchase).dt.days`.
Subtraction involving `NaT` yields `NaT`, whose `.dt.days` is `NaN` (`none`);
`Timedelta.days` floors, hence `Int.fdiv` by the 86400 seconds of a day. -/
def deliveryDays (r : OrderRow) : Option Int :=
  match r.delivered, r.purchase with
  | some d, some p => some (Int.fdiv (d - p) 86400)
  | _, _ => none

/-- Line 99: `df_del['is_delayed'] = delivered > estimated`.  A pandas
comparison against `NaT` evaluates to `False`. -/
def isDelayed (r : OrderRow) : Bool :=
  match r.delivered, r.estimated with
  | some d, some e => decide (e < d)
  | _, _ => false

/-- Line 483: `d_r['delay'] = (delivered - estimated).dt.days.fillna(0)`.
The `.fillna(0)` turns the absent marker into the number 0. -/
def delayDaysFilled (r : OrderRow) : Int :=
  match r.delivered, r.estimated with
  | some d, some e => Int.fdiv (d - e) 86400
  | _, _ => 0

/-- Line 482: `d_r = pd.merge(orders, order_reviews, on='order_id')` (inner
join, one output row per matching pair). -/
def dR (orders : List OrderRow) (reviews : List Review) : List (OrderRow × Review) :=
  orders.flatMap (fun o =>
    (reviews.filter (fun v => v.order_id == o.order_id)).map (fun v => (o, v)))

/-- Line 105: `pd.cut(delivery_days, bins=[-1, 3, 7, 14, 100], labels=[...])`.
`pd.cut` uses half-open intervals `(lo, hi]` (upper bound inclusive) and maps
values outside every bin — below or equal to -1, or above 100 — to `NaN`. -/
def bucket (days : Int) : Option String :=
  if -1 < days ∧ days ≤ 3 then some "0-3일"
  else if 3 < days ∧ days ≤ 7 then some "4-7일"
  else if 7 < days ∧ days ≤ 14 then some "8-14일"
  else if 14 < days ∧ days ≤ 100 then some "15일+"
  else none

/-- Order with a delivered timestamp but an absent purchase timestamp. -/
def rowNoPurchase : OrderRow := ⟨"o2", "c2", none, some 86400, none⟩

/-- Order with no delivered timestamp but an estimated one. -/
def rowNoDelivered : OrderRow := ⟨"o1", "c1", some 0, none, some 864000⟩

def reviewForO1 : Review := ⟨"o1", 3⟩

/-- Order delivered 10 days after purchase, 3 days past its estimate. -/
def rowDelivered10 : OrderRow := ⟨"o3", "c3", some 0, some 864000, some 604800⟩

/-! ## Per-order payment aggregation (src/app_olist.py, lines 232, 301, 399) -/

structure Payment where
  order_id : String
  payment_type : String
  payment_installments : Nat
  payment_value : Rat
deriving DecidableEq

/-- `payments.groupby('order_id')['payment_value'].sum()` evaluated at one
order id: the sum of the `payment_value` of every payment row bearing it. -/
def payTotal (ps : List Payment) (oid : String) : Rat :=
  ((ps.filter (fun p => p.order_id == oid)).map (fun p => p.payment_value)).sum

/-- `payments.groupby('order_id')['payment_value'].sum().reset_index()`: one
row per distinct order id carrying the summed value.  (pandas emits the keys
sorted; first-appearance order is used here, and no property below depends on
row order.) -/
def payGrouped (ps : List Payment) : List (String × Rat) :=
  ((ps.map (fun p => p.order_id)).dedup).map (fun oid => (oid, payTotal ps oid))

/-- The per-order revenue joins of lines 232, 301 and 399: an inner merge on
`order_id` of an order-keyed table with the grouped payment totals. -/
def revenueJoin (orders : List OrderRow) (ps : List Payment) : List (OrderRow × Rat) :=
  orders.flatMap (fun o =>
    ((payGrouped ps).filter (fun kv => kv.1 == o.order_id)).map (fun kv => (o, kv.2)))

/-- The split payment of the specification: two payment rows of 30.0 and 20.0
on the same order. -/
def paysSplit : List Payment :=
  [⟨"A", "credit_card", 1, 30⟩, ⟨"A", "voucher", 1, 20⟩]

def orderA : OrderRow := ⟨"A", "cA", some 0, some 86400, some 86400⟩

/-! ## Repurchase flag (src/app_olist.py, lines 296-298) -/

structure Customer where
  customer_id : String
  customer_unique_id : String
deriving DecidableEq

/-- Line 296: `ord_users = pd.merge(orders[['order_id', 'customer_id']],
customers[['customer_id', 'customer_unique_id']], on='customer_id')`, kept as
its (order_id, customer_unique_id) pairs. -/
def ordUsers (orders : List OrderRow) (customers : List Customer) : List (String × String) :=
  orders.flatMap (fun o =>
    (customers.filter (fun c => c.customer_id == o.customer_id)).map
      (fun c => (o.order_id, c.customer_unique_id)))

/-- Line 297: `ord_users.groupby('customer_unique_id')['order_id'].nunique()`
evaluated at one unique customer id. -/
def orderCount (rows : List (String × String)) (uid : String) : Nat :=
  ((rows.filter (fun r => r.2 == uid)).map (fun r => r.1)).dedup.length

/-- Line 298: `rep_data['is_repurchase'] = rep_data['order_id'] > 1`. -/
def isRepurchase (rows : List (String × String)) (uid : String) : Bool :=
  decide (1 < orderCount rows uid)

/-- One person ("u1") holding two customer accounts. -/
def customersEx : List Customer := [⟨"cid1", "u1"⟩, ⟨"cid2", "u1"⟩]

/-- A single order placed through the first account. -/
def ordersOne : List OrderRow := [⟨"O1", "cid1", none, none, none⟩]

/-- Two distinct orders placed through the person's two accounts. -/
def ordersTwo : List OrderRow :=
  [⟨"O1", "cid1", none, none, none⟩, ⟨"O2", "cid2", none, none, none⟩]

/-! ## Schema Normalizer (src/app_olist.py, lines 62-65) -/

/-- One raw timestamp-bearing column of the orders table: `none` when the
column is absent from the source file (line 65 guards with
`if col in o_df.columns`), otherwise the list of its raw cells, a cell being
`none` when the source value is missing. -/
abbrev RawCol := Option (List (Option String))

structure RawOrders where
  purchaseCol : RawCol
  deliveredCol : RawCol
  estimatedCol : RawCol

/-- `pd.to_datetime(cell, errors='coerce')` on one cell: a missing cell stays
missing and a cell the timestamp grammar `parse` rejects becomes `NaT`
(`none`); no exception escapes, the function is total. -/
def normCell (parse : String → Option Int) (c : Option String) : Option Int :=
  c.bind parse

/-- Line 65 for one column:
`if col in o_df.columns: o_df[col] = pd.to_datetime(o_df[col], errors='coerce')`
— an absent column is skipped, a present one is parsed cell by cell. -/
def normalizeCol (parse : String → Option Int) (col : RawCol) :
    Option (List (Option Int)) :=
  col.map (fun cells => cells.map (normCell parse))

/-- Lines 64-65: the loop over the three timestamp columns of the orders
table. -/
def normalizeOrders (parse : String → Option Int) (t : RawOrders) :
    Option (List (Option Int)) × Option (List (Option Int)) × Option (List (Option Int)) :=
  (normalizeCol parse t.purchaseCol, normalizeCol parse t.deliveredCol,
   normalizeCol parse t.estimatedCol)

/-- A toy timestamp grammar accepting a single literal. -/
def parseEx : String → Option Int :=
  fun s => if s = "2017-01-02 00:00:00" then some 1483315200 else none

/-- A degraded orders table: the purchase column holds a parsable cell, an
unparsable cell and a missing cell; the delivered column is absent. -/
def rawOrdersEx : RawOrders :=
  ⟨some [some "2017-01-02 00:00:00", some "garbage", none], none, some []⟩

/-! ## Aggregation layer (src/app_olist.py, lines 105-106) -/

/-- A merged row of `pd.merge(df_del, order_reviews, on='order_id')`,
restricted to the three columns the aggregation reads: the (possibly `NaN`)
bucket, the delay flag and the review score. -/
def delRev (orders : List OrderRow) (reviews : List Review) :
    List (Option String × Bool × Rat) :=
  (dfDel orders).flatMap (fun o =>
    (reviews.filter (fun v => v.order_id == o.order_id)).map
      (fun v => ((deliveryDays o).bind bucket, isDelayed o, v.review_score)))

/-- The four categories `pd.cut` attaches to the bucket column. -/
def bucketCategories : List String := ["0-3일", "4-7일", "8-14일", "15일+"]

/-- The observed values of the boolean `is_delayed` grouping column, sorted
ascending (`False` before `True`), among rows whose bucket key is not `NaN`
(pandas `groupby` drops rows with a `NaN` group key). -/
def observedDelays (rows : List (Option String × Bool × Rat)) : List Bool :=
  (if rows.any (fun r => r.1.isSome && !r.2.1) then [false] else []) ++
  (if rows.any (fun r => r.1.isSome && r.2.1) then [true] else [])

/-- The review scores of one (bucket, is_delayed) group. -/
def groupScores (rows : List (Option String × Bool × Rat)) (b : String) (d : Bool) :
    List Rat :=
  (rows.filter (fun r => r.1 == some b && r.2.1 == d)).map (fun r => r.2.2)

/-- Mean of the scores of one group; absent (`NaN`) for an empty group. -/
def meanOpt (l : List Rat) : Option Rat :=
  if l.isEmpty then none else some (l.sum / l.length)

/-- Line 106:
`pd.merge(df_del, order_reviews, on='order_id').groupby(['bucket','is_delayed'])['review_score'].mean().reset_index()`.
The bucket column is categorical (it comes from `pd.cut`), and `groupby` with
its default `observed=False` reindexes the result over the cartesian product
of all four bucket categories with the observed values of the other grouping
column, so a category with no qualifying rows appears with a `NaN` mean. -/
def aggDel (rows : List (Option String × Bool × Rat)) :
    List (String × Bool × Option Rat) :=
  bucketCategories.flatMap (fun b =>
    (observedDelays rows).map (fun d => (b, d, meanOpt (groupScores rows b d))))

/-- One order delivered two days after purchase, well before its estimate. -/
def ordersAgg : List OrderRow := [⟨"A1", "cA1", some 0, some 172800, some 604800⟩]

def reviewsAgg : List Review := [⟨"A1", 5⟩]

/-- A single merged row: bucket "0-3일", on time, score 5. -/
def rowsW : List (Option String × Bool × Rat) := [(some "0-3일", false, 5)]

/-! ## Cleaning tool (src/preprocess_olist.py, `preprocess_files`)

Filenames are modelled as character lists so Python string operations can be
translated exactly. -/

/-- The extension `".csv"`. -/
def csvExt : List Char := ['.', 'c', 's', 'v']

/-- The extension `".parquet"`. -/
def parquetExt : List Char := ['.', 'p', 'a', 'r', 'q', 'u', 'e', 't']

/-- The text `"_cleaned.csv"`: both the skip suffix of line 10 and the
replacement text of line 76. -/
def repCsv : List Char := ['_', 'c', 'l', 'e', 'a', 'n', 'e', 'd', '.', 'c', 's', 'v']

/-- The text `"_cleaned.parquet"`: both the skip suffix of line 10 and the
replacement text of line 79. -/
def repParquet : List Char :=
  ['_', 'c', 'l', 'e', 'a', 'n', 'e', 'd', '.', 'p', 'a', 'r', 'q', 'u', 'e', 't']

/-- Python `str.replace(pat, rep)` (lines 76 and 79): every non-overlapping
occurrence of `pat` is replaced, scanning left to right.  The guard carries
the `pat ≠ []` evidence termination needs; the tool only calls this with the
nonempty patterns `".csv"` and `".parquet"`. -/
def replaceAll (pat rep : List Char) : List Char → List Char
  | [] => []
  | c :: rest =>
    if h : pat ≠ [] ∧ pat.isPrefixOf (c :: rest) then
      rep ++ replaceAll pat rep ((c :: rest).drop pat.length)
    else
      c :: replaceAll pat rep rest
termination_by s => s.length
decreasing_by
  · have hp : 0 < pat.length := List.length_pos.mpr h.1
    simp [List.length_drop]
    omega
  · simp

/-- Lines 10-11: `if file_path.endswith("_cleaned.csv") or
file_path.endswith("_cleaned.parquet"): continue`. -/
def isCleanedName (f : List Char) : Bool :=
  repCsv.isSuffixOf f || repParquet.isSuffixOf f

/-- The globbed files the loop body actually processes: everything not
skipped by lines 10-11. -/
def processedFiles (files : List (List Char)) : List (List Char) :=
  files.filter (fun f => !isCleanedName f)

/-- Lines 75-80: the output path is
`file_path.replace(".csv", "_cleaned.csv")` for a csv input and
`file_path.replace(".parquet", "_cleaned.parquet")` otherwise. -/
def outputName (f : List Char) : List Char :=
  if csvExt.isSuffixOf f then replaceAll csvExt repCsv f
  else replaceAll parquetExt repParquet f

/-- One run of `preprocess_files` over a directory, abstracted to the list of
output paths it writes; the input list is the glob result of line 7. -/
def outputsOf (files : List (List Char)) : List (List Char) :=
  (processedFiles files).map outputName

/-- The filename `"a.csv"`. -/
def fileRaw : List Char := ['a', '.', 'c', 's', 'v']

/-- The filename `"a_cleaned.csv"`. -/
def fileCleaned : List Char :=
  ['a', '_', 'c', 'l', 'e', 'a', 'n', 'e', 'd', '.', 'c', 's', 'v']

end Olist

namespace Olist

/-- Claim C1: for every logical table the loader probes candidate files in the
priority order cleaned parquet, cleaned csv, raw parquet, raw csv, loading the
first that exists and parses; in particular, when both a cleaned parquet and a
raw csv are available, the cleaned parquet is selected. -/
theorem loader_priority_order (env : Env) (base : String) :
    (loadTable env base =
      match (candidates base).find? (readOk env) with
      | some p => .loaded p
      | none => .empty) ∧
    (readOk env (base ++ "_cleaned" ++ ".parquet") = true →
      readOk env (base ++ "" ++ ".csv") = true →
      loadTable env base = .loaded (base ++ "_cleaned" ++ ".parquet")) := by
  constructor
  · unfold loadTable probeSuffix candidates
    cases h1 : readOk env (base ++ "_cleaned" ++ ".parquet") <;>
    cases h2 : readOk env (base ++ "_cleaned" ++ ".csv") <;>
    cases h3 : readOk env (base ++ "" ++ ".parquet") <;>
    cases h4 : readOk env (base ++ "" ++ ".csv") <;>
    simp only [String.append_empty] at h3 h4 <;>
    simp [List.find?, h1, h2, h3, h4]
  · intro h1 _
    unfold loadTable probeSuffix
    simp [h1]

theorem loader_priority_order_witness :
    readOk envCleanedParquetRawCsv "t_cleaned.parquet" = true ∧
    readOk envCleanedParquetRawCsv "t.csv" = true ∧
    loadTable envCleanedParquetRawCsv "t" = .loaded "t_cleaned.parquet" :=
  ⟨by decide, by decide,
    (loader_priority_order envCleanedParquetRawCsv "t").2 (by decide) (by decide)⟩

/-- Claim C7 counterexample: with no file present at all, `load_data` yields
the empty table but surfaces no diagnostic whatsoever — the diagnostic stream
is empty, refuting the claim that a diagnostic identifying the missing logical
table is surfaced (and likewise none naming an unparsable path is emitted). -/
theorem loader_silent_fallback_counterexample :
    loadTableWithDiag envEmpty "olist_orders_dataset" = (.empty, []) ∧
    ¬ ∃ d, d ∈ (loadTableWithDiag envEmpty "olist_orders_dataset").2 := by
  constructor
  · rfl
  · rintro ⟨d, hd⟩
    simp [loadTableWithDiag] at hd

/-- Claim C7 amended: when no candidate file resolves, the loader produces an
empty table for that logical name without crashing, and a file that exists but
fails to parse is treated as not found (the next candidate is probed); however
no diagnostic of any kind is emitted in either situation. -/
theorem loader_failsoft_silent (env : Env) (base : String) :
    ((∀ p ∈ candidates base, readOk env p = false) → loadTable env base = .empty) ∧
    (loadTableWithDiag env base).2 = [] ∧
    (readOk env (base ++ "_cleaned" ++ ".parquet") = false →
      readOk env (base ++ "_cleaned" ++ ".csv") = false →
      readOk env (base ++ "" ++ ".parquet") = false →
      readOk env (base ++ "" ++ ".csv") = true →
      loadTable env base = .loaded (base ++ "" ++ ".csv")) := by
  refine ⟨?_, rfl, ?_⟩
  · intro h
    have h1 := h (base ++ "_cleaned" ++ ".parquet") (by simp [candidates])
    have h2 := h (base ++ "_cleaned" ++ ".csv") (by simp [candidates])
    have h3 := h (base ++ "" ++ ".parquet") (by simp [candidates])
    have h4 := h (base ++ "" ++ ".csv") (by simp [candidates])
    simp only [String.append_empty] at h3 h4
    unfold loadTable probeSuffix
    simp [h1, h2, h3, h4]
  · intro h1 h2 h3 h4
    simp only [String.append_empty] at h3 h4
    unfold loadTable probeSuffix
    simp [h1, h2, h3, h4]

theorem loader_failsoft_silent_witness :
    envCorruptCleaned.present.contains "t_cleaned.parquet" = true ∧
    readOk envCorruptCleaned "t_cleaned.parquet" = false ∧
    readOk envCorruptCleaned "t.csv" = true ∧
    loadTable envCorruptCleaned "t" = .loaded "t.csv" ∧
    loadTable envEmpty "x" = .empty :=
  ⟨by decide, by decide, by decide,
    (loader_failsoft_silent envCorruptCleaned "t").2.2 (by decide) (by decide) (by decide) (by decide),
    (loader_failsoft_silent envEmpty "x").1 (by decide)⟩

/-- Claim C2 counterexample: a row with a delivered timestamp but an absent
purchase timestamp is NOT excluded from the derived table `df_del` (line 96
drops only on the delivered column); it stays with an absent delivery
duration, refuting "whose delivered timestamp or purchase timestamp is absent
... excludes that row from the derived table". -/
theorem delivery_duration_counterexample :
    dfDel [rowNoPurchase] = [rowNoPurchase] ∧
    rowNoPurchase.purchase = none ∧
    deliveryDays rowNoPurchase = none := by
  refine ⟨rfl, rfl, rfl⟩

/-- Claim C2 amended: rows whose delivered timestamp is absent are excluded
from the derived table; a row with the delivered timestamp present but the
purchase timestamp absent remains in the derived table carrying an absent
(`NaN`) delivery duration — no sentinel value is substituted; and for rows
where both are present the delivery duration is delivered minus purchase in
whole days. -/
theorem delivery_duration_amended (orders : List OrderRow) (r : OrderRow) :
    (r ∈ dfDel orders ↔ r ∈ orders ∧ r.delivered.isSome = true) ∧
    (∀ d p, r.delivered = some d → r.purchase = some p →
      deliveryDays r = some (Int.fdiv (d - p) 86400)) ∧
    (r.purchase = none → deliveryDays r = none) := by
  refine ⟨?_, ?_, ?_⟩
  · simp [dfDel, List.mem_filter]
  · intro d p hd hp
    simp [deliveryDays, hd, hp]
  · intro hp
    cases hd : r.delivered <;> simp [deliveryDays, hd, hp]

theorem delivery_duration_amended_witness :
    rowDelivered10 ∈ dfDel [rowDelivered10] ∧
    deliveryDays rowDelivered10 = some 10 ∧
    deliveryDays rowNoPurchase = none :=
  ⟨(delivery_duration_amended [rowDelivered10] rowDelivered10).1.mpr ⟨by decide, by decide⟩,
   (delivery_duration_amended [rowDelivered10] rowDelivered10).2.1 864000 0 rfl rfl,
   (delivery_duration_amended [] rowNoPurchase).2.2 rfl⟩

/-- Claim C3 counterexample: in the consumer-satisfaction view (line 482-483)
a row lacking the delivered timestamp is kept in the merged table `d_r` and
its delay value is coerced to 0 by `.fillna(0)`, refuting "for every row
lacking a delivered timestamp ... the row is excluded, never coerced to false
or 0". -/
theorem delay_flag_counterexample :
    dR [rowNoDelivered] [reviewForO1] = [(rowNoDelivered, reviewForO1)] ∧
    rowNoDelivered.delivered = none ∧
    delayDaysFilled rowNoDelivered = 0 := by
  refine ⟨rfl, rfl, rfl⟩

/-- Claim C3 amended: the delay flag `is_delayed` of the delivered-orders
table is true iff the delivered timestamp is strictly later than the
estimated-delivery timestamp, and every row of that table has a delivered
timestamp (rows lacking it are excluded); however the delay-days column of
the consumer-satisfaction view coerces rows lacking a delivered timestamp to
0 instead of excluding them. -/
theorem delay_flag_amended (orders : List OrderRow) (r : OrderRow) :
    (r ∈ dfDel orders →
      (isDelayed r = true ↔ ∃ d e, r.delivered = some d ∧ r.estimated = some e ∧ e < d)) ∧
    (r ∈ dfDel orders → r.delivered.isSome = true) ∧
    (r.delivered = none → delayDaysFilled r = 0) := by
  refine ⟨?_, ?_, ?_⟩
  · intro hm
    have hs : r.delivered.isSome = true := (List.mem_filter.mp hm).2
    cases hd : r.delivered with
    | none => rw [hd] at hs; simp at hs
    | some d =>
      cases he : r.estimated with
      | none => simp [isDelayed, hd, he]
      | some e => simp [isDelayed, hd, he]
  · intro hm
    exact (List.mem_filter.mp hm).2
  · intro h
    simp [delayDaysFilled, h]

theorem delay_flag_amended_witness :
    isDelayed rowDelivered10 = true ∧
    rowDelivered10.delivered.isSome = true ∧
    delayDaysFilled rowNoDelivered = 0 :=
  ⟨((delay_flag_amended [rowDelivered10] rowDelivered10).1 (by decide)).mpr
      ⟨864000, 604800, rfl, rfl, by decide⟩,
   (delay_flag_amended [rowDelivered10] rowDelivered10).2.1 (by decide),
   (delay_flag_amended [] rowNoDelivered).2.2 rfl⟩

/-- Claim C6 counterexample: a delivery duration of 101 days falls outside
the last `pd.cut` bin `(14, 100]` and is mapped to `NaN`, not to the "15+"
bucket, refuting "15 days (and any larger duration) maps to 15+" and the
claim that the buckets totally partition the durations. -/
theorem delivery_bucket_counterexample :
    bucket 101 = none ∧ bucket 101 ≠ some "15일+" := by
  refine ⟨rfl, by decide⟩

/-- Claim C6 amended: the delivery-bucket assignment is a fixed partition of
the range (-1, 100] with inclusive upper bounds — 3 days maps to "0-3",
4 days to "4-7", 15 days (up to 100) to "15+" — but a duration above 100
days (or at most -1) is mapped to no bucket at all (`NaN`). -/
theorem delivery_bucket_amended (d : Int) :
    (-1 < d → d ≤ 3 → bucket d = some "0-3일") ∧
    (3 < d → d ≤ 7 → bucket d = some "4-7일") ∧
    (7 < d → d ≤ 14 → bucket d = some "8-14일") ∧
    (14 < d → d ≤ 100 → bucket d = some "15일+") ∧
    (100 < d → bucket d = none) ∧
    (d ≤ -1 → bucket d = none) := by
  refine ⟨?_, ?_, ?_, ?_, ?_, ?_⟩ <;>
    (intros; unfold bucket; split_ifs <;> first | rfl | omega)

theorem delivery_bucket_amended_witness :
    bucket 3 = some "0-3일" ∧ bucket 4 = some "4-7일" ∧ bucket 15 = some "15일+" ∧
    bucket 100 = some "15일+" :=
  ⟨(delivery_bucket_amended 3).1 (by decide) (by decide),
   (delivery_bucket_amended 4).2.1 (by decide) (by decide),
   (delivery_bucket_amended 15).2.2.2.1 (by decide) (by decide),
   (delivery_bucket_amended 100).2.2.2.1 (by decide) (by decide)⟩

/-- Membership in the grouped payment table: a key-value row appears iff the
key is the id of some payment row and the value is the per-order total. -/
theorem mem_payGrouped (ps : List Payment) (kv : String × Rat) :
    kv ∈ payGrouped ps ↔
      kv.1 ∈ ps.map (fun p => p.order_id) ∧ kv.2 = payTotal ps kv.1 := by
  unfold payGrouped
  rw [List.mem_map]
  constructor
  · rintro ⟨oid, hoid, rfl⟩
    exact ⟨List.mem_dedup.mp hoid, rfl⟩
  · rintro ⟨h1, h2⟩
    exact ⟨kv.1, List.mem_dedup.mpr h1, by rw [← h2]⟩

/-- The grouped payment table has pairwise-distinct order ids. -/
theorem payGrouped_keys_nodup (ps : List Payment) :
    ((payGrouped ps).map Prod.fst).Nodup := by
  unfold payGrouped
  rw [List.map_map]
  have h : (Prod.fst ∘ fun oid => (oid, payTotal ps oid)) = fun oid : String => oid := rfl
  rw [h, List.map_id']
  exact List.nodup_dedup _

/-- Claim C4: per-order monetary aggregation sums all payment rows sharing an
order id before the per-order join: a joined row for an order carries exactly
the total of all its payment rows (so never a single row's value nor a
multiple — the grouped table has one row per order id), and the 30.0 + 20.0
split payment of the specification contributes exactly 50.0. -/
theorem payment_sum_before_join (orders : List OrderRow) (ps : List Payment)
    (o : OrderRow) (v : Rat) :
    ((o, v) ∈ revenueJoin orders ps ↔
      o ∈ orders ∧ o.order_id ∈ ps.map (fun p => p.order_id) ∧
        v = payTotal ps o.order_id) ∧
    ((payGrouped ps).map Prod.fst).Nodup ∧
    payTotal paysSplit "A" = 50 ∧
    revenueJoin [orderA] paysSplit = [(orderA, 50)] := by
  refine ⟨?_, payGrouped_keys_nodup ps, ?_, ?_⟩
  case refine_2 =>
    simp [payTotal, paysSplit]
    norm_num
  case refine_3 =>
    simp [revenueJoin, payGrouped, paysSplit, orderA, List.dedup, payTotal]
    norm_num
  unfold revenueJoin
  rw [List.mem_flatMap]
  constructor
  · rintro ⟨o', ho', hmem⟩
    rw [List.mem_map] at hmem
    obtain ⟨kv, hkv, heq⟩ := hmem
    rw [List.mem_filter] at hkv
    obtain ⟨hg, hk⟩ := hkv
    have hk' : kv.1 = o'.order_id := by simpa using hk
    obtain ⟨ho1, ho2⟩ := (mem_payGrouped ps kv).mp hg
    have heo : o' = o := congrArg Prod.fst heq
    subst heo
    have hev : kv.2 = v := congrArg Prod.snd heq
    refine ⟨ho', ?_, ?_⟩
    · rw [← hk']; exact ho1
    · rw [← hev, ho2, hk']
  · rintro ⟨ho, hid, rfl⟩
    refine ⟨o, ho, ?_⟩
    rw [List.mem_map]
    refine ⟨(o.order_id, payTotal ps o.order_id), ?_, rfl⟩
    rw [List.mem_filter]
    exact ⟨(mem_payGrouped ps _).mpr ⟨hid, rfl⟩, by simp⟩

/-- A list has more than one distinct element iff it contains two different
elements. -/
theorem one_lt_dedup_length_iff {α : Type} [DecidableEq α] (l : List α) :
    1 < l.dedup.length ↔ ∃ a ∈ l, ∃ b ∈ l, a ≠ b := by
  constructor
  · intro h
    match hd : l.dedup with
    | [] => rw [hd] at h; simp at h
    | [a] => rw [hd] at h; simp at h
    | a :: b :: t =>
      have hnd := l.nodup_dedup
      rw [hd] at hnd
      have hab : a ≠ b := by
        intro e
        exact (List.nodup_cons.mp hnd).1 (by rw [e]; simp)
      have ha : a ∈ l := List.mem_dedup.mp (by rw [hd]; simp)
      have hb : b ∈ l := List.mem_dedup.mp (by rw [hd]; simp)
      exact ⟨a, ha, b, hb, hab⟩
  · rintro ⟨a, ha, b, hb, hab⟩
    by_contra hle
    push_neg at hle
    have ha' : a ∈ l.dedup := List.mem_dedup.mpr ha
    have hb' : b ∈ l.dedup := List.mem_dedup.mpr hb
    match hd : l.dedup with
    | [] => rw [hd] at ha'; simp at ha'
    | [x] =>
      rw [hd] at ha' hb'
      simp at ha' hb'
      exact hab (ha'.trans hb'.symm)
    | x :: y :: t =>
      rw [hd] at hle
      simp at hle

/-- Projecting the order ids of one unique customer out of the merged
(order_id, customer_unique_id) pairs. -/
theorem mem_orderIds_iff (rows : List (String × String)) (uid a : String) :
    a ∈ (rows.filter (fun r => r.2 == uid)).map (fun r => r.1) ↔ (a, uid) ∈ rows := by
  rw [List.mem_map]
  constructor
  · rintro ⟨⟨x, y⟩, hx, rfl⟩
    rw [List.mem_filter] at hx
    obtain ⟨hm, he⟩ := hx
    have : y = uid := by simpa using he
    subst this
    exact hm
  · intro h
    exact ⟨(a, uid), List.mem_filter.mpr ⟨h, by simp⟩, rfl⟩

/-- Claim C5: the repurchase flag of a `customer_unique_id` is true iff that
person has more than one distinct order id across all of their customer_id
records; a customer with one order yields false, one with two distinct order
ids (even through two different customer_id accounts) yields true. -/
theorem repurchase_iff_two_orders (orders : List OrderRow) (customers : List Customer)
    (uid : String) :
    (isRepurchase (ordUsers orders customers) uid = true ↔
      ∃ o1 o2, o1 ≠ o2 ∧ (o1, uid) ∈ ordUsers orders customers ∧
        (o2, uid) ∈ ordUsers orders customers) ∧
    orderCount (ordUsers ordersOne customersEx) "u1" = 1 ∧
    isRepurchase (ordUsers ordersOne customersEx) "u1" = false ∧
    orderCount (ordUsers ordersTwo customersEx) "u1" = 2 ∧
    isRepurchase (ordUsers ordersTwo customersEx) "u1" = true := by
  refine ⟨?_, by decide, by decide, by decide, by decide⟩
  unfold isRepurchase orderCount
  rw [decide_eq_true_iff, one_lt_dedup_length_iff]
  constructor
  · rintro ⟨a, ha, b, hb, hab⟩
    exact ⟨a, b, hab, (mem_orderIds_iff _ uid a).mp ha, (mem_orderIds_iff _ uid b).mp hb⟩
  · rintro ⟨o1, o2, hne, h1, h2⟩
    exact ⟨o1, (mem_orderIds_iff _ uid o1).mpr h1, o2, (mem_orderIds_iff _ uid o2).mpr h2, hne⟩

/-- Claim C8: the Schema Normalizer parses the Order timestamp columns into a
temporal type, mapping unparsable or missing values to the explicit absent
marker (never a default date; `normCell` is total, so no exception can halt
the pipeline for a single row), and a column entirely absent from the source
table is skipped rather than required. -/
theorem normalizer_coerce_and_skip (parse : String → Option Int) (t : RawOrders)
    (c : Option String) (v : Int) :
    (normCell parse c = some v ↔ ∃ s, c = some s ∧ parse s = some v) ∧
    normCell parse none = none ∧
    (∀ s, parse s = none → normCell parse (some s) = none) ∧
    (t.purchaseCol = none → (normalizeOrders parse t).1 = none) ∧
    (t.deliveredCol = none → (normalizeOrders parse t).2.1 = none) ∧
    (t.estimatedCol = none → (normalizeOrders parse t).2.2 = none) ∧
    (∀ cells, t.purchaseCol = some cells →
      (normalizeOrders parse t).1 = some (cells.map (normCell parse))) := by
  refine ⟨?_, rfl, ?_, ?_, ?_, ?_, ?_⟩
  · cases c with
    | none => simp [normCell]
    | some s => simp [normCell]
  · intro s h
    simp [normCell, h]
  · intro h
    simp [normalizeOrders, normalizeCol, h]
  · intro h
    simp [normalizeOrders, normalizeCol, h]
  · intro h
    simp [normalizeOrders, normalizeCol, h]
  · intro cells h
    simp [normalizeOrders, normalizeCol, h]

theorem normalizer_coerce_and_skip_witness :
    normCell parseEx (some "2017-01-02 00:00:00") = some 1483315200 ∧
    normCell parseEx (some "garbage") = none ∧
    normCell parseEx none = none ∧
    (normalizeOrders parseEx rawOrdersEx).2.1 = none ∧
    (normalizeOrders parseEx rawOrdersEx).1 = some [some 1483315200, none, none] := by
  have base := normalizer_coerce_and_skip parseEx rawOrdersEx
    (some "2017-01-02 00:00:00") 1483315200
  refine ⟨base.1.mpr ⟨_, rfl, by decide⟩, base.2.2.1 "garbage" (by decide),
    base.2.1, base.2.2.2.2.1 rfl, ?_⟩
  have h := base.2.2.2.2.2.2 [some "2017-01-02 00:00:00", some "garbage", none] rfl
  exact h.trans (by decide)

/-- The observed-delay level list is duplicate-free. -/
theorem observedDelays_nodup (rows : List (Option String × Bool × Rat)) :
    (observedDelays rows).Nodup := by
  unfold observedDelays
  split_ifs <;> decide

/-- The group keys of `aggDel` form the cartesian product of the bucket
categories with the observed delay values. -/
theorem aggDel_keys (rows : List (Option String × Bool × Rat)) :
    (aggDel rows).map (fun r => (r.1, r.2.1)) =
      bucketCategories.product (observedDelays rows) := by
  unfold aggDel
  rw [List.map_flatMap]
  simp only [List.map_map]
  rfl

/-- Membership in the aggregation output. -/
theorem mem_aggDel (rows : List (Option String × Bool × Rat))
    (b : String) (d : Bool) (m : Option Rat) :
    (b, d, m) ∈ aggDel rows ↔
      b ∈ bucketCategories ∧ d ∈ observedDelays rows ∧
        m = meanOpt (groupScores rows b d) := by
  unfold aggDel
  rw [List.mem_flatMap]
  constructor
  · rintro ⟨b', hb', hmem⟩
    rw [List.mem_map] at hmem
    obtain ⟨d', hd', heq⟩ := hmem
    have hb : b' = b := congrArg Prod.fst heq
    have hd : d' = d := congrArg (fun p => p.2.1) heq
    have hm : meanOpt (groupScores rows b' d') = m := congrArg (fun p => p.2.2) heq
    subst hb
    subst hd
    exact ⟨hb', hd', hm.symm⟩
  · rintro ⟨hb, hd, rfl⟩
    refine ⟨b, hb, ?_⟩
    rw [List.mem_map]
    exact ⟨d, hd, rfl⟩

/-- Claim C9 counterexample: with one order in bucket "0-3일" and nothing
else, the aggregation output still contains one row per bucket category; the
empty categories appear with an absent (`NaN`) mean instead of being absent
from the output, refuting "a group key value with zero qualifying rows ... is
absent from the aggregation output entirely". -/
theorem aggregation_sparse_counterexample :
    ("4-7일", false, (none : Option Rat)) ∈ aggDel (delRev ordersAgg reviewsAgg) ∧
    aggDel (delRev ordersAgg reviewsAgg) =
      [("0-3일", false, some 5), ("4-7일", false, none),
       ("8-14일", false, none), ("15일+", false, none)] := by
  have h1 : delRev ordersAgg reviewsAgg = rowsW := by decide
  have h2 : aggDel rowsW =
      [("0-3일", false, some 5), ("4-7일", false, none),
       ("8-14일", false, none), ("15일+", false, none)] := by
    simp [aggDel, bucketCategories, observedDelays, groupScores, meanOpt, rowsW]
  rw [h1, h2]
  exact ⟨by simp, rfl⟩

/-- Claim C9 amended: the aggregation output has pairwise-distinct group
keys, and a row of the output carries an absent (`NaN`) mean exactly when its
group has zero qualifying rows — but because the bucket key is categorical,
such empty groups are present in the output (one row per bucket category
crossed with each observed delay value) rather than absent; the mean of a
non-empty group is the arithmetic mean of its review scores, never treating
absent values as zero. -/
theorem aggregation_keys_amended (rows : List (Option String × Bool × Rat)) :
    ((aggDel rows).map (fun r => (r.1, r.2.1))).Nodup ∧
    (∀ b d m, (b, d, m) ∈ aggDel rows ↔
      b ∈ bucketCategories ∧ d ∈ observedDelays rows ∧
        m = meanOpt (groupScores rows b d)) ∧
    (∀ b d m, (b, d, m) ∈ aggDel rows → (m = none ↔ groupScores rows b d = [])) ∧
    (∀ b d x, (b, d, some x) ∈ aggDel rows →
      x = (groupScores rows b d).sum / (groupScores rows b d).length) := by
  refine ⟨?_, mem_aggDel rows, ?_, ?_⟩
  · rw [aggDel_keys]
    exact List.Nodup.product (by decide) (observedDelays_nodup rows)
  · intro b d m hm
    obtain ⟨-, -, rfl⟩ := (mem_aggDel rows b d m).mp hm
    cases hg : groupScores rows b d <;> simp [meanOpt, hg]
  · intro b d x hm
    obtain ⟨-, -, heq⟩ := (mem_aggDel rows b d (some x)).mp hm
    cases hg : groupScores rows b d with
    | nil => rw [hg] at heq; simp [meanOpt] at heq
    | cons a t =>
      rw [hg] at heq
      simp only [meanOpt, List.isEmpty_cons, if_neg] at heq
      exact Option.some.inj heq

theorem aggregation_keys_amended_witness :
    ("4-7일", false, (none : Option Rat)) ∈ aggDel rowsW ∧
    ((none : Option Rat) = none ↔ groupScores rowsW "4-7일" false = []) ∧
    (5 : Rat) = (groupScores rowsW "0-3일" false).sum /
      (groupScores rowsW "0-3일" false).length := by
  have hmem1 : ("4-7일", false, (none : Option Rat)) ∈ aggDel rowsW := by
    simp [aggDel, bucketCategories, observedDelays, groupScores, meanOpt, rowsW]
  have hmem2 : ("0-3일", false, some (5 : Rat)) ∈ aggDel rowsW := by
    simp [aggDel, bucketCategories, observedDelays, groupScores, meanOpt, rowsW]
  exact ⟨hmem1, (aggregation_keys_amended rowsW).2.2.1 _ _ _ hmem1,
    (aggregation_keys_amended rowsW).2.2.2 _ _ _ hmem2⟩

/-- If a filename ends with a pattern whose first character never recurs in
the pattern (true of ".csv" and ".parquet", whose dot appears only first),
then the Python replace of that pattern by `rep` yields a name ending in
`rep`. -/
theorem replaceAll_ends_rep (hd : Char) (tl rep : List Char) (hov : hd ∉ tl) :
    ∀ n s, s.length ≤ n → (hd :: tl) <:+ s →
      rep <:+ replaceAll (hd :: tl) rep s := by
  intro n
  induction n with
  | zero =>
    intro s hs hsuf
    obtain ⟨t, ht⟩ := hsuf
    have hlen := congrArg List.length ht
    simp at hlen
    omega
  | succ n ih =>
    intro s hs hsuf
    obtain ⟨t, ht⟩ := hsuf
    cases s with
    | nil =>
      have hlen := congrArg List.length ht
      simp at hlen
    | cons c rest =>
      simp only [List.length_cons] at hs
      by_cases hpre : (hd :: tl).isPrefixOf (c :: rest)
      · have hp : (hd :: tl) <+: (c :: rest) := ( List.isPrefixOf_iff_prefix).mp hpre
        obtain ⟨r, hr⟩ := hp
        rw [replaceAll, dif_pos ⟨List.cons_ne_nil hd tl, hpre⟩]
        have hdrop : (c :: rest).drop (hd :: tl).length = r := by
          rw [← hr, List.drop_left]
        rw [hdrop]
        by_cases hre : r = []
        · subst hre
          rw [replaceAll, List.append_nil]
        · have hlen : t.length = r.length := by
            have h1 := congrArg List.length ht
            have h2 := congrArg List.length hr
            simp at h1 h2
            omega
          have hrpos : 0 < r.length := List.length_pos.mpr hre
          have heq : t ++ (hd :: tl) = (hd :: tl) ++ r := by rw [ht, hr]
          by_cases hge : (hd :: tl).length ≤ t.length
          · have hr2 : r = t.drop (hd :: tl).length ++ (hd :: tl) := by
              have h4 : ((hd :: tl) ++ r).drop (hd :: tl).length
                  = (t ++ (hd :: tl)).drop (hd :: tl).length := by rw [heq]
              rw [List.drop_left, List.drop_append_eq_append_drop] at h4
              have h0 : (hd :: tl).length - t.length = 0 := by omega
              rw [h0, List.drop_zero] at h4
              exact h4
            have hsfx : (hd :: tl) <:+ r := ⟨t.drop (hd :: tl).length, hr2.symm⟩
            have hrn : r.length ≤ n := by
              have h2 := congrArg List.length hr
              simp at h2
              omega
            exact (ih r hrn hsfx).trans (List.suffix_append rep _)
          · exfalso
            push_neg at hge
            have hk1 : 1 ≤ t.length := by omega
            have e1 : (t ++ (hd :: tl))[t.length]? = some hd := by
              rw [List.getElem?_append_right (le_refl t.length)]
              simp
            have e2 : ((hd :: tl) ++ r)[t.length]? = (hd :: tl)[t.length]? :=
              List.getElem?_append_left hge
            rw [heq, e2] at e1
            obtain ⟨k, hk⟩ : ∃ k, t.length = k + 1 := ⟨t.length - 1, by omega⟩
            rw [hk, List.getElem?_cons_succ] at e1
            have hkb : k < tl.length := by
              simp only [List.length_cons] at hge
              omega
            rw [List.getElem?_eq_getElem hkb] at e1
            have hbad : tl[k] = hd := Option.some.inj e1
            exact hov (hbad ▸ List.getElem_mem hkb)
      · rw [replaceAll, dif_neg (fun hcon => hpre hcon.2)]
        cases t with
        | nil =>
          exfalso
          apply hpre
          have hps : (hd :: tl) = c :: rest := by simpa using ht
          rw [hps]
          exact ( List.isPrefixOf_iff_prefix).mpr List.prefix_rfl
        | cons t0 t' =>
          have hrest : t' ++ (hd :: tl) = rest := by
            simp only [List.cons_append] at ht
            exact ((List.cons.injEq t0 _ c rest).mp ht).2
          have hn : rest.length ≤ n := by omega
          exact (ih rest hn ⟨t', hrest⟩).trans (List.suffix_cons c _)

/-- A csv filename's replacement result ends in `"_cleaned.csv"`. -/
theorem replaceAll_csv_cleaned (s : List Char) (h : csvExt <:+ s) :
    repCsv <:+ replaceAll csvExt repCsv s :=
  replaceAll_ends_rep '.' ['c', 's', 'v'] repCsv (by decide) s.length s le_rfl h

/-- A parquet filename's replacement result ends in `"_cleaned.parquet"`. -/
theorem replaceAll_parquet_cleaned (s : List Char) (h : parquetExt <:+ s) :
    repParquet <:+ replaceAll parquetExt repParquet s :=
  replaceAll_ends_rep '.' ['p', 'a', 'r', 'q', 'u', 'e', 't'] repParquet
    (by decide) s.length s le_rfl h

/-- Every output the tool writes bears one of the two cleaned suffixes. -/
theorem outputName_cleaned (f : List Char) (h : csvExt <:+ f ∨ parquetExt <:+ f) :
    isCleanedName (outputName f) = true := by
  unfold outputName
  by_cases hc : csvExt.isSuffixOf f
  · rw [if_pos hc]
    have h1 : repCsv.isSuffixOf (replaceAll csvExt repCsv f) = true :=
      ( List.isSuffixOf_iff_suffix).mpr
        (replaceAll_csv_cleaned f (( List.isSuffixOf_iff_suffix).mp hc))
    simp [isCleanedName, h1]
  · rw [if_neg hc]
    have hpq : parquetExt <:+ f := by
      rcases h with h | h
      · exact absurd (( List.isSuffixOf_iff_suffix).mpr h) hc
      · exact h
    have h1 : repParquet.isSuffixOf (replaceAll parquetExt repParquet f) = true :=
      ( List.isSuffixOf_iff_suffix).mpr (replaceAll_parquet_cleaned f hpq)
    simp [isCleanedName, h1]

/-- Claim C10: the cleaning tool never re-processes its own outputs — every
file whose name ends in "_cleaned.csv" or "_cleaned.parquet" is skipped
entirely, every file the tool writes bears one of those suffixes, and a
second run over the directory augmented with the first run's outputs writes
exactly the first run's files again (nothing derived from an already-cleaned
output, so no "_cleaned_cleaned" name can arise). -/
theorem preprocess_skips_cleaned (files : List (List Char))
    (h : ∀ f ∈ files, csvExt <:+ f ∨ parquetExt <:+ f) :
    (∀ f ∈ files, isCleanedName f = true → f ∉ processedFiles files) ∧
    (∀ g ∈ outputsOf files, isCleanedName g = true) ∧
    outputsOf (files ++ outputsOf files) = outputsOf files := by
  have houts : ∀ g ∈ outputsOf files, isCleanedName g = true := by
    intro g hg
    rw [outputsOf, List.mem_map] at hg
    obtain ⟨f, hf, rfl⟩ := hg
    exact outputName_cleaned f (h f (List.mem_of_mem_filter hf))
  refine ⟨?_, houts, ?_⟩
  · intro f hf hcl hmem
    rw [processedFiles, List.mem_filter] at hmem
    rw [hcl] at hmem
    simp at hmem
  · rw [outputsOf, processedFiles, List.filter_append]
    have hnil : (outputsOf files).filter (fun f => !isCleanedName f) = [] := by
      rw [List.filter_eq_nil_iff]
      intro g hg
      simp [houts g hg]
    rw [hnil, List.append_nil]
    rfl

theorem preprocess_skips_cleaned_witness :
    (∀ f ∈ [fileRaw, fileCleaned], csvExt <:+ f ∨ parquetExt <:+ f) ∧
    fileCleaned ∉ processedFiles [fileRaw, fileCleaned] ∧
    outputsOf ([fileRaw, fileCleaned] ++ outputsOf [fileRaw, fileCleaned]) =
      outputsOf [fileRaw, fileCleaned] := by
  have hh : ∀ f ∈ [fileRaw, fileCleaned], csvExt <:+ f ∨ parquetExt <:+ f := by
    intro f hf
    simp only [List.mem_cons, List.not_mem_nil, or_false] at hf
    rcases hf with rfl | rfl
    · exact Or.inl ⟨['a'], rfl⟩
    · exact Or.inl ⟨['a', '_', 'c', 'l', 'e', 'a', 'n', 'e', 'd'], rfl⟩
  exact ⟨hh,
    (preprocess_skips_cleaned [fileRaw, fileCleaned] hh).1 fileCleaned
      (by simp) (by decide),
    (preprocess_skips_cleaned [fileRaw, fileCleaned] hh).2.2⟩

end Olist
